import Mathlib

/-!
Verification of the dev-portfolio backend against its specification.

We shallowly embed the JavaScript source (src/routes/linkedin.js,
src/routes/portfolio.js, src/validation/schemas.js) in Lean.  JavaScript
strings are modelled as `List Char`, JS objects built from parsed CSV rows as
association lists (insertion-ordered, as JS string-keyed objects are), and
JSON documents held by the flat-file section store as a `JVal` tree.
Fallible code paths (thrown exceptions) are modelled with `Except`.
-/

namespace Portfolio

/-- JS strings, modelled as lists of characters. -/
abbrev Str := List Char

/-- Convenience conversion from Lean string literals. -/
def lit (s : String) : Str := s.toList

/-- ASCII lower-casing of one character (JS `toLowerCase` on the ASCII range,
which is all the keyword tables of the source use). -/
def lowerChar (c : Char) : Char :=
  if 'A' ≤ c ∧ c ≤ 'Z' then Char.ofNat (c.toNat + 32) else c

/-- JS `String.prototype.toLowerCase`. -/
def lowerStr (s : Str) : Str := s.map lowerChar

/-- Whitespace characters removed by JS `String.prototype.trim`. -/
def isWhite (c : Char) : Bool := c == ' ' || c == '\t' || c == '\n' || c == '\r'

/-- JS `String.prototype.trim`. -/
def trimStr (s : Str) : Str :=
  ((s.dropWhile isWhite).reverse.dropWhile isWhite).reverse

/-- JS `String.prototype.split(sep)` for a one-character separator:
splitting the empty string gives `[""]`, and separators at the ends give
empty fields, exactly as in JS. -/
def splitOnChar (sep : Char) (s : Str) : List Str :=
  match s with
  | [] => [[]]
  | c :: rest =>
    let r := splitOnChar sep rest
    if c == sep then [] :: r
    else
      match r with
      | [] => [[c]]
      | h :: t => (c :: h) :: t

/-- Does `p` occur at the start of `s`? -/
def startsWithStr : Str → Str → Bool
  | [], _ => true
  | _ :: _, [] => false
  | p :: ps, c :: cs => p == c && startsWithStr ps cs

/-- JS `String.prototype.includes`: substring containment. -/
def jsIncludes (s pat : Str) : Bool :=
  match s with
  | [] => startsWithStr pat []
  | _ :: rest => startsWithStr pat s || jsIncludes rest pat

/-- JS `String.prototype.replace(pat, rep)` with a string pattern: replaces
only the first occurrence and returns the string unchanged when the pattern
does not occur. -/
def replaceFirst (s pat rep : Str) : Str :=
  match s with
  | [] => if startsWithStr pat [] then rep else []
  | c :: rest =>
    if startsWithStr pat (c :: rest) then rep ++ (c :: rest).drop pat.length
    else c :: replaceFirst rest pat rep

/-- Embeds `csvContent.split(newline).filter(line => line.trim())`: the non-blank lines
of a CSV text (every parser in linkedin.js starts this way). -/
def nonblankLines (s : Str) : List Str :=
  (splitOnChar '\n' s).filter (fun l => !(trimStr l).isEmpty)

/-! ### CSV row records

A parsed CSV row is a JS object mapping lower-cased header names to raw
string values: an insertion-ordered association list.  Assigning to an
existing key updates it in place; assigning a fresh key appends it. -/

abbrev Rec := List (Str × Str)

/-- JS property assignment `o[k] = v` on a string-keyed object: updates the
(unique) existing key in place, else appends the new key. -/
def objSet : Rec → Str → Str → Rec
  | [], k, v => [(k, v)]
  | p :: rest, k, v => if p.1 == k then (p.1, v) :: rest else p :: objSet rest k v

/-- JS property read `o[k]` (`undefined` becomes `none`). -/
def rawGet (o : Rec) (k : Str) : Option Str :=
  (o.find? (·.1 == k)).map (·.2)

/-- JS truthiness-filtered read: `o[k]` when it is a non-empty string,
mirroring `o.k || fallback` chains (the empty string is falsy). -/
def truthyGet (o : Rec) (k : Str) : Option Str :=
  match rawGet o k with
  | some v => if v.isEmpty then none else some v
  | none => none

/-- Embeds `headers.forEach((header, index) => { rec[header.toLowerCase()] =
data[index] or empty })` from the four CSV parsers. -/
def buildRecord (headers data : List Str) : Rec :=
  headers.enum.foldl (fun r p => objSet r (lowerStr p.2) (data.getD p.1 [])) []

/-! ### The four CSV parsers (linkedin.js 140-236) -/

/-- Embeds `parseProfileCSV`: requires a header line and at least one data row,
otherwise throws. -/
def parseProfileCSV (csvContent : Str) : Except String Rec :=
  let lines := nonblankLines csvContent
  if lines.length < 2 then
    .error "Profile CSV must have at least header and one data row"
  else
    let headers := (splitOnChar ',' (lines.getD 0 [])).map trimStr
    let data := (splitOnChar ',' (lines.getD 1 [])).map trimStr
    .ok (buildRecord headers data)

/-- Embeds `parsePositionsCSV`: reads `lines[0]` unconditionally, so a fully blank
input throws a TypeError in JS; a header with no data rows yields `[]`. -/
def parsePositionsCSV (csvContent : Str) : Except String (List Rec) :=
  match nonblankLines csvContent with
  | [] => .error "TypeError: cannot read properties of undefined"
  | h :: t =>
    let headers := (splitOnChar ',' h).map trimStr
    .ok (t.map fun l => buildRecord headers ((splitOnChar ',' l).map trimStr))

/-- Embeds `parseSkillsCSV`: an empty input gives `[]`; a single line, or a first
line whose lower-casing contains "name", selects the simple format (each
further line is a bare skill name with default level); otherwise the generic
header-mapped format is used. -/
def parseSkillsCSV (csvContent : Str) : List Rec :=
  match nonblankLines csvContent with
  | [] => []
  | h :: t =>
    if t.isEmpty || jsIncludes (lowerStr h) (lit "name") then
      t.filterMap fun l =>
        let skillName := trimStr l
        if skillName.isEmpty then none
        else some [(lit "name", skillName), (lit "level", lit "intermediate")]
    else
      let headers := (splitOnChar ',' h).map trimStr
      t.map fun l => buildRecord headers ((splitOnChar ',' l).map trimStr)

/-- Embeds `parseEducationCSV`: same shape as `parsePositionsCSV`. -/
def parseEducationCSV (csvContent : Str) : Except String (List Rec) :=
  match nonblankLines csvContent with
  | [] => .error "TypeError: cannot read properties of undefined"
  | h :: t =>
    let headers := (splitOnChar ',' h).map trimStr
    .ok (t.map fun l => buildRecord headers ((splitOnChar ',' l).map trimStr))

/-- The accumulated result of `parseLinkedInCSV`. -/
structure CsvData where
  profile : Option Rec
  positions : List Rec
  skills : List Rec
  education : List Rec
deriving Repr, DecidableEq

/-- An uploaded file: original name and UTF-8 content. -/
abbrev CsvFile := Str × Str

/-- One iteration of the `for (const file of files)` loop in
`parseLinkedInCSV`: the file kind is chosen by filename substring (checked in
the order profile, position, skill, education), and a parser that throws is
caught, leaving the accumulator unchanged. -/
def parseFileStep (acc : CsvData) (file : CsvFile) : CsvData :=
  let fileName := lowerStr file.1
  if jsIncludes fileName (lit "profile") then
    match parseProfileCSV file.2 with
    | .ok p => { acc with profile := some p }
    | .error _ => acc
  else if jsIncludes fileName (lit "position") then
    match parsePositionsCSV file.2 with
    | .ok p => { acc with positions := p }
    | .error _ => acc
  else if jsIncludes fileName (lit "skill") then
    { acc with skills := parseSkillsCSV file.2 }
  else if jsIncludes fileName (lit "education") then
    match parseEducationCSV file.2 with
    | .ok e => { acc with education := e }
    | .error _ => acc
  else acc

/-- Embeds `parseLinkedInCSV` (linkedin.js 105-135). -/
def parseLinkedInCSV (files : List CsvFile) : CsvData :=
  files.foldl parseFileStep { profile := none, positions := [], skills := [], education := [] }

/-! ### Skill categorization (linkedin.js 284-449) -/

/-- A skill entry of the skills section document. -/
structure Skill where
  name : Str
  level : Str
deriving Repr, DecidableEq

/-- Subcategory-name → skills, in insertion order. -/
abbrev Subcats := List (Str × List Skill)

/-- Role-name → subcategories, in insertion order. -/
abbrev Categorized := List (Str × Subcats)

/-- The static role → subcategory → keyword tables (linkedin.js 287-324). -/
def roleCategories : List (Str × List (Str × List Str)) :=
  [ (lit "Frontend Development",
      [ (lit "Languages", [lit "javascript", lit "typescript", lit "html", lit "css"]),
        (lit "Frameworks", [lit "react", lit "vue", lit "angular", lit "svelte", lit "next.js", lit "nuxt.js"]),
        (lit "Styling", [lit "sass", lit "less", lit "bootstrap", lit "tailwind", lit "styled-components"]),
        (lit "Build Tools", [lit "webpack", lit "vite", lit "parcel", lit "gulp"]) ]),
    (lit "Backend Development",
      [ (lit "Languages", [lit "python", lit "java", lit "c#", lit "go", lit "php", lit "ruby", lit "node.js"]),
        (lit "Frameworks", [lit "express", lit "django", lit "spring", lit "fastapi", lit "laravel", lit "asp.net"]),
        (lit "APIs", [lit "rest", lit "graphql", lit "grpc", lit "soap"]),
        (lit "Architecture", [lit "microservices", lit "monolith", lit "serverless", lit "event-driven"]) ]),
    (lit "Data & Analytics",
      [ (lit "Databases", [lit "mongodb", lit "postgresql", lit "mysql", lit "sqlite", lit "redis", lit "elasticsearch"]),
        (lit "Big Data", [lit "hadoop", lit "spark", lit "kafka", lit "airflow", lit "snowflake"]),
        (lit "Analytics", [lit "tableau", lit "power bi", lit "python pandas", lit "numpy"]),
        (lit "Machine Learning", [lit "tensorflow", lit "pytorch", lit "scikit-learn", lit "keras"]) ]),
    (lit "DevOps & Infrastructure",
      [ (lit "Cloud", [lit "aws", lit "azure", lit "google cloud", lit "gcp"]),
        (lit "Containers", [lit "docker", lit "kubernetes", lit "podman", lit "rancher"]),
        (lit "CI/CD", [lit "jenkins", lit "gitlab ci", lit "github actions", lit "circleci"]),
        (lit "Monitoring", [lit "prometheus", lit "grafana", lit "elk stack", lit "datadog"]) ]),
    (lit "Tools & Platforms",
      [ (lit "Version Control", [lit "git", lit "github", lit "gitlab", lit "bitbucket"]),
        (lit "Project Management", [lit "jira", lit "confluence", lit "notion", lit "trello"]),
        (lit "Development", [lit "vs code", lit "intellij", lit "postman", lit "swagger"]),
        (lit "Testing", [lit "jest", lit "cypress", lit "selenium", lit "junit"]) ]),
    (lit "Other",
      [ (lit "General", [lit "leadership", lit "communication", lit "problem solving", lit "teamwork"]),
        (lit "Soft Skills", [lit "presentation", lit "negotiation", lit "mentoring", lit "collaboration"]),
        (lit "Domain Knowledge", [lit "finance", lit "healthcare", lit "ecommerce", lit "education"]),
        (lit "Certifications", [lit "pmp", lit "scrum", lit "agile", lit "six sigma"]) ]) ]

/-- One keyword test (linkedin.js 344-351): the lower-cased skill name must
contain the keyword verbatim or with its first space replaced by `""`, `-`,
`.` or `_` (JS `replace` with a string pattern only replaces the first
occurrence). -/
def matchesKeyword (skillNameLower kw : Str) : Bool :=
  let keyword := lowerStr kw
  jsIncludes skillNameLower keyword ||
  jsIncludes skillNameLower (replaceFirst keyword (lit " ") []) ||
  jsIncludes skillNameLower (replaceFirst keyword (lit " ") (lit "-")) ||
  jsIncludes skillNameLower (replaceFirst keyword (lit " ") (lit ".")) ||
  jsIncludes skillNameLower (replaceFirst keyword (lit " ") (lit "_"))

/-- The matching double loop (linkedin.js 336-372): the first role/subcategory
pair, in declaration order, one of whose keywords matches the lower-cased
skill name; unmatched skills get role "Other" with no subcategory.  (The
`Array.isArray` branch of the source is dead code: every value of
`roleCategories` is a nested object.) -/
def assignSkill (skillName : Str) : Str × Option Str :=
  let skillNameLower := lowerStr skillName
  match roleCategories.findSome? (fun rc =>
      rc.2.findSome? (fun sc =>
        if sc.2.any (matchesKeyword skillNameLower) then some (rc.1, some sc.1) else none)) with
  | some a => a
  | none => (lit "Other", none)

/-- Embeds `categorizedSkills[role][subcategory].push(skill)` with on-demand
creation of the subcategory key (linkedin.js 380-396). -/
def pushSubcat : Subcats → Str → Skill → Subcats
  | [], subcat, sk => [(subcat, [sk])]
  | p :: rest, subcat, sk =>
    if p.1 == subcat then (p.1, p.2 ++ [sk]) :: rest
    else p :: pushSubcat rest subcat sk

/-- Insert one categorized skill under its role and subcategory bucket,
creating the role key on demand (linkedin.js 374-396). -/
def insertSkill : Categorized → Str → Str → Skill → Categorized
  | [], role, sc, sk => [(role, pushSubcat [] sc sk)]
  | p :: rest, role, sc, sk =>
    if p.1 == role then (p.1, pushSubcat p.2 sc sk) :: rest
    else p :: insertSkill rest role sc sk

/-- Embeds `skill.name || skill.skill_name` — when both are absent or empty the JS
code falls back to the record object itself and the subsequent
`.toLowerCase()` call throws a TypeError. -/
def recSkillName (r : Rec) : Option Str :=
  (truthyGet r (lit "name")).orElse fun _ => truthyGet r (lit "skill_name")

/-- Embeds the chain of level, proficiency, and the default level. -/
def recSkillLevel (r : Rec) : Str :=
  ((truthyGet r (lit "level")).orElse fun _ => truthyGet r (lit "proficiency")).getD
    (lit "intermediate")

/-- The `csvData.skills.forEach` categorization loop (linkedin.js 329-397),
one record at a time; a record with no usable name throws (JS TypeError). -/
def categorizeSkills : List Rec → Categorized → Except String Categorized
  | [], cat => .ok cat
  | r :: rs, cat =>
    match recSkillName r with
    | none => .error "TypeError: skillName.toLowerCase is not a function"
    | some n =>
      let a := assignSkill n
      categorizeSkills rs (insertSkill cat a.1 (a.2.getD (lit "Other")) ⟨n, recSkillLevel r⟩)

/-! ### Preference-driven restructuring (linkedin.js 399-449) -/

/-- The categorization preferences (§3 of the spec; linkedin.js 37-41). -/
structure Prefs where
  useSubcategories : Bool
  minSkillsForSubcategory : Int
  categoryOverrides : List (Str × Str)
deriving Repr, DecidableEq

/-- The default preferences used by the import endpoints. -/
def defaultPrefs : Prefs :=
  { useSubcategories := true, minSkillsForSubcategory := 3, categoryOverrides := [] }

/-- Embeds `userPreferences.categoryOverrides?.[role]`. -/
def overrideOf (p : Prefs) (role : Str) : Option Str :=
  (p.categoryOverrides.find? (·.1 == role)).map (·.2)

/-- Embeds `Object.values(subcategories).flat()`. -/
def flattenSubcats (scs : Subcats) : List Skill := (scs.map (·.2)).flatten

/-- The final value of a role: either a flat skill sequence or nested
subcategories. -/
inductive RoleVal where
  | flat (skills : List Skill)
  | nested (subcats : Subcats)
deriving Repr, DecidableEq

/-- The per-role restructuring (linkedin.js 419-440): the flat branch fires
on an explicit "flat" override or on (subcategories globally disabled and
total below threshold); otherwise the nested branch fires on a
"subcategories" override or on (globally enabled and total at threshold);
otherwise flat. -/
def restructureRole (p : Prefs) (role : Str) (scs : Subcats) : RoleVal :=
  let userOverride := overrideOf p role
  let totalSkills : Int := (flattenSubcats scs).length
  if userOverride == some (lit "flat") ||
      (!p.useSubcategories && totalSkills < p.minSkillsForSubcategory) then
    .flat (flattenSubcats scs)
  else if userOverride == some (lit "subcategories") ||
      (p.useSubcategories && totalSkills ≥ p.minSkillsForSubcategory) then
    .nested (scs.filter (fun sc => sc.2.length > 0))
  else
    .flat (flattenSubcats scs)

/-- The fixed preferred role order (linkedin.js 403-410). -/
def roleOrder : List Str :=
  [ lit "Frontend Development", lit "Backend Development", lit "Data & Analytics",
    lit "DevOps & Infrastructure", lit "Tools & Platforms", lit "Other" ]

/-- JS `Array.prototype.indexOf`: the index of the first occurrence, `-1`
when absent. -/
def jsIndexOf (l : List Str) (x : Str) : Int :=
  match l.findIdx? (· == x) with
  | some i => (i : Int)
  | none => -1

/-- Stable insertion step: `a` is placed before the first element it compares
less-or-equal to, matching the stable ascending sort JS guarantees. -/
def insertLe (le : α → α → Bool) (a : α) : List α → List α
  | [] => [a]
  | b :: l => if le a b then a :: b :: l else b :: insertLe le a l

/-- Stable sort by a boolean comparison (JS `Array.prototype.sort` with a
consistent comparator). -/
def sortByLe (le : α → α → Bool) : List α → List α
  | [] => []
  | a :: l => insertLe le a (sortByLe le l)

/-- Embeds `sortedRoles` (linkedin.js 413-417): the keys of `categorizedSkills`
sorted by `roleOrder` position using the comparator `aIndex - bIndex`. -/
def sortRoles (keys : List Str) : List Str :=
  sortByLe (fun a b => decide (jsIndexOf roleOrder a - jsIndexOf roleOrder b ≤ 0)) keys

/-- Embeds `categorizedSkills[role]` for a role taken from the key list. -/
def subcatsOf (cat : Categorized) (role : Str) : Subcats :=
  ((cat.find? (·.1 == role)).map (·.2)).getD []

/-- The whole skills transformation (linkedin.js 329-449): categorize, order
the roles, restructure each. -/
def transformSkills (records : List Rec) (p : Prefs) :
    Except String (List (Str × RoleVal)) := do
  let cat ← categorizeSkills records []
  let sorted := sortRoles (cat.map (·.1))
  .ok (sorted.map fun role => (role, restructureRole p role (subcatsOf cat role)))

/-! ### The full transformation (linkedin.js 241-467) and save path -/

/-- The personalInfo section produced from a profile record. -/
structure PersonalInfo where
  name : Str
  title : Str
  location : Str
  bio : Str
deriving Repr, DecidableEq

/-- The about section. -/
structure About where
  content : Str
deriving Repr, DecidableEq

/-- One job of the experience section produced from a position record. -/
structure Job where
  title : Str
  company : Str
  startDate : Str
  endDate : Option Str
  isCurrent : Bool
  location : Str
  country : Str
  city : Str
  description : Str
  achievements : List Str
  skills : List Str
deriving Repr, DecidableEq

/-- The experience section. -/
structure Experience where
  jobs : List Job
deriving Repr, DecidableEq

/-- The skills section document: categories plus the preferences that
produced them. -/
structure SkillsDoc where
  skillCategories : List (Str × RoleVal)
  categorization : Prefs
deriving Repr, DecidableEq

/-- One degree of the education section. -/
structure Degree where
  degree : Str
  school : Str
  field : Str
  startDate : Str
  endDate : Str
  description : Str
deriving Repr, DecidableEq

/-- The education section. -/
structure EducationDoc where
  degrees : List Degree
deriving Repr, DecidableEq

/-- The portfolio-shaped output of `transformLinkedInData`. -/
structure PortfolioData where
  personalInfo : Option PersonalInfo
  about : Option About
  experience : Option Experience
  skills : Option SkillsDoc
  education : Option EducationDoc
deriving Repr, DecidableEq

/-- Embeds `position → job` (linkedin.js 265-280).  `is_current` parses only the
literal string "true" (strict equality on the raw field); achievements split
on `;`, skills split on `,` with trimming; literal defaults otherwise. -/
def positionToJob (position : Rec) : Job :=
  { title := ((truthyGet position (lit "title")).orElse fun _ =>
      truthyGet position (lit "job_title")).getD (lit "Software Developer")
    company := ((truthyGet position (lit "company")).orElse fun _ =>
      truthyGet position (lit "organization")).getD (lit "Company Name")
    startDate := ((truthyGet position (lit "start_date")).orElse fun _ =>
      truthyGet position (lit "from")).getD (lit "2023-01")
    endDate := (truthyGet position (lit "end_date")).orElse fun _ =>
      truthyGet position (lit "to")
    isCurrent := rawGet position (lit "is_current") == some (lit "true") ||
      rawGet position (lit "current") == some (lit "true")
    location := (truthyGet position (lit "location")).getD (lit "remote")
    country := (truthyGet position (lit "country")).getD (lit "Your Country")
    city := (truthyGet position (lit "city")).getD (lit "Your City")
    description := (truthyGet position (lit "description")).getD
      (lit "Develop and maintain web applications...")
    achievements :=
      match truthyGet position (lit "achievements") with
      | some a => splitOnChar ';' a
      | none => [lit "Developed and deployed 3 major features",
                 lit "Improved application performance by 30%"]
    skills :=
      match truthyGet position (lit "skills") with
      | some s => (splitOnChar ',' s).map trimStr
      | none => [lit "React", lit "Node.js", lit "JavaScript"] }

/-- Embeds `edu → degree` (linkedin.js 455-462). -/
def eduToDegree (edu : Rec) : Degree :=
  { degree := ((truthyGet edu (lit "degree")).orElse fun _ =>
      truthyGet edu (lit "degree_name")).getD (lit "Bachelor\x27s Degree")
    school := ((truthyGet edu (lit "school")).orElse fun _ =>
      truthyGet edu (lit "institution")).getD (lit "University Name")
    field := ((truthyGet edu (lit "field")).orElse fun _ =>
      truthyGet edu (lit "major")).getD (lit "Computer Science")
    startDate := ((truthyGet edu (lit "start_date")).orElse fun _ =>
      truthyGet edu (lit "from")).getD (lit "2019-09")
    endDate := ((truthyGet edu (lit "end_date")).orElse fun _ =>
      truthyGet edu (lit "to")).getD (lit "2023-05")
    description := (truthyGet edu (lit "description")).getD
      (lit "Relevant coursework and projects...") }

/-- Embeds `transformLinkedInData` (linkedin.js 241-467): each portfolio section is
produced only when its CSV data is present; the skills branch can throw (see
`categorizeSkills`). -/
def transformLinkedInData (csvData : CsvData) (userPreferences : Prefs) :
    Except String PortfolioData := do
  let personalInfo := csvData.profile.map fun profile =>
    { name := ((truthyGet profile (lit "full_name")).orElse fun _ =>
        truthyGet profile (lit "name")).getD (lit "Your Name")
      title := ((truthyGet profile (lit "headline")).orElse fun _ =>
        truthyGet profile (lit "title")).getD (lit "Software Developer")
      location := (truthyGet profile (lit "location")).getD (lit "Your Location")
      bio := (truthyGet profile (lit "summary")).getD
        (lit "A passionate software developer...") }
  let about : Option About := csvData.profile.map fun profile =>
    { content := (truthyGet profile (lit "summary")).getD
        (lit "I am a passionate software developer...") }
  let experience : Option Experience :=
    if csvData.positions.isEmpty then none
    else some { jobs := csvData.positions.map positionToJob }
  let skills ←
    if csvData.skills.isEmpty then pure (none : Option SkillsDoc)
    else do
      let categories ← transformSkills csvData.skills userPreferences
      pure (some { skillCategories := categories, categorization := userPreferences })
  let education : Option EducationDoc :=
    if csvData.education.isEmpty then none
    else some { degrees := csvData.education.map eduToDegree }
  .ok { personalInfo, about, experience, skills, education }

/-- A section document as written by the save path of the import. -/
inductive SectionDoc where
  | personalInfo (v : PersonalInfo)
  | about (v : About)
  | experience (v : Experience)
  | skills (v : SkillsDoc)
  | education (v : EducationDoc)
deriving Repr, DecidableEq

/-- Embeds `saveToPortfolio` (linkedin.js 472-485): the ordered list of
`writeSectionData` calls it performs — one per present section, in the order
of its hard-coded section list, with no validation step. -/
def saveToPortfolio (portfolioData : PortfolioData) : List (Str × SectionDoc) :=
  (portfolioData.personalInfo.map fun v => (lit "personalInfo", SectionDoc.personalInfo v)).toList ++
  (portfolioData.about.map fun v => (lit "about", SectionDoc.about v)).toList ++
  (portfolioData.skills.map fun v => (lit "skills", SectionDoc.skills v)).toList ++
  (portfolioData.experience.map fun v => (lit "experience", SectionDoc.experience v)).toList ++
  (portfolioData.education.map fun v => (lit "education", SectionDoc.education v)).toList

/-- The pipeline of the import endpoint (linkedin.js 63-100): parse the uploaded
files, transform, and return the section writes `saveToPortfolio` performs. -/
def importWrites (files : List CsvFile) (p : Prefs) :
    Except String (List (Str × SectionDoc)) := do
  let csvData := parseLinkedInCSV files
  let portfolioData ← transformLinkedInData csvData p
  .ok (saveToPortfolio portfolioData)

/-! ### Section CRUD (portfolio.js, schemas.js) -/

/-- Embeds `VALID_SECTIONS` (portfolio.js 14). -/
def VALID_SECTIONS : List Str :=
  [ lit "personalInfo", lit "about", lit "skills", lit "experience",
    lit "projects", lit "contact" ]

/-- The keys of `schemaMap` (schemas.js 98-105): the only sections for which
`validateSection` has a schema; for any other section it throws
"No schema found" (schemas.js 110-112). -/
def schemaMapSections : List Str :=
  [ lit "personalInfo", lit "about", lit "skills", lit "experience",
    lit "projects", lit "contact" ]

/-! The section store (portfolio.js 16-46) holds arbitrary JSON documents,
one per section name. -/

/-- A JSON value. -/
inductive JVal where
  | str (s : Str)
  | num (n : Int)
  | bool (b : Bool)
  | null
  | arr (xs : List JVal)
  | obj (fields : List (Str × JVal))

/-- JSON object field lookup. -/
def jLookup (fields : List (Str × JVal)) (k : Str) : Option JVal :=
  (fields.find? (·.1 == k)).map (·.2)

/-- JS truthiness of an optional JSON value (`undefined`, `null`, `false`,
`0`, and the empty string are falsy; arrays and objects are always truthy). -/
def jTruthy : Option JVal → Bool
  | none => false
  | some (.str s) => !s.isEmpty
  | some (.num n) => n != 0
  | some (.bool b) => b
  | some .null => false
  | some (.arr _) => true
  | some (.obj _) => true

/-- Replace the value of a field, keeping its position (JS assignment to an
existing object key). -/
def jSetField (fields : List (Str × JVal)) (k : Str) (v : JVal) : List (Str × JVal) :=
  fields.map fun p => if p.1 == k then (p.1, v) else p

/-- The flat-file store: one JSON document per section name. -/
abbrev Store := List (Str × JVal)

/-- Embeds `writeSectionData` (portfolio.js 40-46): whole-document overwrite of the
file of the section. -/
def writeSectionData : Store → Str → JVal → Store
  | [], sectionName, data => [(sectionName, data)]
  | p :: rest, sectionName, data =>
    if p.1 == sectionName then (p.1, data) :: rest
    else p :: writeSectionData rest sectionName data

/-- Parse a `YYYY-MM` date string (with a real month) to a month count, the
order JS `new Date` puts on the well-formed date strings the experience
schema admits.  Malformed strings give `none` (JS `Invalid Date`/`NaN`). -/
def parseYM (s : Str) : Option Int :=
  match s with
  | [y3, y2, y1, y0, dash, m1, m0] =>
    if y3.isDigit && y2.isDigit && y1.isDigit && y0.isDigit && dash == '-' &&
        m1.isDigit && m0.isDigit then
      let month := 10 * (m1.toNat - 48) + (m0.toNat - 48)
      if 1 ≤ month ∧ month ≤ 12 then
        some ((1000 * (y3.toNat - 48) + 100 * (y2.toNat - 48) + 10 * (y1.toNat - 48)
          + (y0.toNat - 48) : Int) * 12 + (month : Int))
      else none
    else none
  | _ => none

/-- Embeds `a.isCurrent` truthiness for a job value. -/
def jobIsCurrent (j : JVal) : Bool :=
  match j with
  | .obj fields => jTruthy (jLookup fields (lit "isCurrent"))
  | _ => false

/-- The `new Date(job.startDate)` month index of a job, defaulting to `0`
outside the well-formed domain (where JS gives `NaN` and the comparator, and
hence the sort order, is unspecified). -/
def jobStart (j : JVal) : Int :=
  match j with
  | .obj fields =>
    match jLookup fields (lit "startDate") with
    | some (.str s) => (parseYM s).getD 0
    | _ => 0
  | _ => 0

/-- The jobs comparator (portfolio.js 26-33): current jobs first, then
descending start date. -/
def compareJobs (a b : JVal) : Int :=
  if jobIsCurrent a && !jobIsCurrent b then -1
  else if !jobIsCurrent a && jobIsCurrent b then 1
  else jobStart b - jobStart a

/-- The boolean comparison underlying the jobs sort. -/
def leJobs (a b : JVal) : Bool := decide (compareJobs a b ≤ 0)

/-- Embeds `parsedData.jobs.sort(compareJobs)`: JS stable sort by the comparator. -/
def sortJobs (jobs : List JVal) : List JVal :=
  sortByLe leJobs jobs

/-- Embeds `readSectionData` (portfolio.js 20-37): read the stored document; for the
experience section with a truthy `jobs` field, sort the jobs in the returned
copy (a truthy non-array `jobs` would make `.sort` throw in JS). -/
def readSectionData (store : Store) (sectionName : Str) : Except String JVal :=
  match (store.find? (·.1 == sectionName)).map (·.2) with
  | none => .error "ENOENT"
  | some parsedData =>
    if sectionName == lit "experience" then
      match parsedData with
      | .obj fields =>
        if jTruthy (jLookup fields (lit "jobs")) then
          match jLookup fields (lit "jobs") with
          | some (.arr jobs) =>
            .ok (.obj (jSetField fields (lit "jobs") (.arr (sortJobs jobs))))
          | _ => .error "TypeError: parsedData.jobs.sort is not a function"
        else .ok parsedData
      | _ => .ok parsedData
    else .ok parsedData

/-- The result of an HTTP handler, reduced to what the claims mention. -/
inductive HttpResult (α : Type) where
  | ok (v : α)
  | badRequest (msg : String)
  | notFound (msg : String)
deriving Repr, DecidableEq

/-- Embeds `GET /api/portfolio/:section` (portfolio.js 68-85). -/
def getSection (store : Store) (sectionName : Str) : HttpResult JVal :=
  if !VALID_SECTIONS.contains sectionName then .badRequest "Invalid section"
  else
    match readSectionData store sectionName with
    | .ok d => .ok d
    | .error _ => .notFound "Section not found"

/-- Embeds `GET /api/portfolio` (portfolio.js 49-65): the aggregate document reads
exactly the valid sections, substituting `null` on a read error. -/
def getAllPortfolio (store : Store) : List (Str × Option JVal) :=
  VALID_SECTIONS.map fun s => (s, (readSectionData store s).toOption)

/-- Embeds `PUT /api/portfolio/:section` (portfolio.js 129-154): reject invalid
sections, validate, and write the validated (unknown-fields-stripped) value.
The Joi validator itself is an excluded external collaborator, so it is a
parameter; the returned pair is the `writeSectionData` call performed. -/
def putSection (validate : Str → α → Except String α) (sectionName : Str) (body : α) :
    Except String (Str × α) :=
  if !VALID_SECTIONS.contains sectionName then .error "Invalid section"
  else
    match validate sectionName body with
    | .error _ => .error "Validation failed"
    | .ok value => .ok (sectionName, value)


/-- A job whose `startDate` is a string the experience schema admits and that
JS `new Date` parses to a valid date; on this domain the embedded comparator
agrees with the source comparator. -/
def jobStartValid (j : JVal) : Bool :=
  match j with
  | .obj fields =>
    match jLookup fields (lit "startDate") with
    | some (.str s) => (parseYM s).isSome
    | _ => false
  | _ => false

/-- The skills held by one role value of the transformed output. -/
def skillsOfVal : RoleVal → List Skill
  | .flat skills => skills
  | .nested scs => flattenSubcats scs

/-- Every skill entry appearing in the transformed output, across flat roles
and nested subcategories. -/
def outputSkills (out : List (Str × RoleVal)) : List Skill :=
  (out.map fun rv => skillsOfVal rv.2).flatten

/-- Every skill entry held by the intermediate categorized structure. -/
def catSkills (cat : Categorized) : List Skill :=
  (cat.map fun rc => flattenSubcats rc.2).flatten

/-- The skill entry the transformation derives from one CSV record: its
(truthy) name, and its level, proficiency, or the default. -/
def recToSkill (r : Rec) : Skill :=
  ⟨(recSkillName r).getD [], recSkillLevel r⟩

end Portfolio

section Sanity

open Portfolio

example : nonblankLines (lit "a\n\n b \n") = [lit "a", lit " b "] := by decide

example : parseSkillsCSV (lit "React\nDocker\nLeadership") =
    [[(lit "react", lit "Docker")], [(lit "react", lit "Leadership")]] := by decide

example : parseSkillsCSV (lit "Name\nReact\nDocker") =
    [[(lit "name", lit "React"), (lit "level", lit "intermediate")],
     [(lit "name", lit "Docker"), (lit "level", lit "intermediate")]] := by decide

example : parseProfileCSV (lit "a,b\n1") =
    .ok [(lit "a", lit "1"), (lit "b", [])] := rfl

example : (parseProfileCSV (lit "a,b\n   \n")).isOk = false := by decide

example : assignSkill (lit "React") = (lit "Frontend Development", some (lit "Frameworks")) := by decide

example : assignSkill (lit "Docker") = (lit "DevOps & Infrastructure", some (lit "Containers")) := by decide

example : assignSkill (lit "Leadership") = (lit "Other", some (lit "General")) := by decide

example : assignSkill (lit "Spring Boot") = (lit "Backend Development", some (lit "Frameworks")) := by decide

example : assignSkill (lit "zzz") = (lit "Other", none) := by decide

example :
    transformSkills
      [[(lit "name", lit "X"), (lit "proficiency", lit "expert")]] defaultPrefs =
    .ok [(lit "Other", .flat [⟨lit "X", lit "expert"⟩])] := rfl

example :
    restructureRole
      { useSubcategories := false, minSkillsForSubcategory := 3,
        categoryOverrides := [(lit "Backend Development", lit "subcategories")] }
      (lit "Backend Development")
      [(lit "Frameworks", [⟨lit "a", lit "b"⟩, ⟨lit "c", lit "d"⟩])] =
    .flat [⟨lit "a", lit "b"⟩, ⟨lit "c", lit "d"⟩] := by decide

example :
    importWrites [(lit "education.csv", lit "degree,school\nBSc,MIT")] defaultPrefs =
    .ok [(lit "education", .education
      { degrees := [{ degree := lit "BSc", school := lit "MIT",
                      field := lit "Computer Science", startDate := lit "2019-09",
                      endDate := lit "2023-05",
                      description := lit "Relevant coursework and projects..." }] })] := rfl

example :
    readSectionData
      (writeSectionData [] (lit "experience")
        (.obj [(lit "jobs", .arr
          [ .obj [(lit "isCurrent", .bool false), (lit "startDate", .str (lit "2019-04"))],
            .obj [(lit "isCurrent", .bool true), (lit "startDate", .str (lit "2018-01"))],
            .obj [(lit "isCurrent", .bool false), (lit "startDate", .str (lit "2021-11"))] ])]))
      (lit "experience") =
    .ok (.obj [(lit "jobs", .arr
      [ .obj [(lit "isCurrent", .bool true), (lit "startDate", .str (lit "2018-01"))],
        .obj [(lit "isCurrent", .bool false), (lit "startDate", .str (lit "2021-11"))],
        .obj [(lit "isCurrent", .bool false), (lit "startDate", .str (lit "2019-04"))] ])]) := rfl

example :
    readSectionData (writeSectionData [] (lit "about") (.str (lit "x"))) (lit "about") =
    .ok (.str (lit "x")) := rfl

end Sanity

namespace Portfolio

/-! ### Helper lemmas -/

/-- Every line kept by `nonblankLines` has a non-empty trim. -/
theorem mem_nonblankLines {c l : Str} (h : l ∈ nonblankLines c) :
    (trimStr l).isEmpty = false := by
  have := List.of_mem_filter h
  simpa using this

/-- The simple-format branch of the skills parser keeps every non-blank row. -/
theorem filterMap_nonblank_rows (rows : List Str)
    (hmem : ∀ r ∈ rows, (trimStr r).isEmpty = false) :
    (rows.filterMap fun l =>
      if (trimStr l).isEmpty then none
      else some [(lit "name", trimStr l), (lit "level", lit "intermediate")]) =
    rows.map fun l => [(lit "name", trimStr l), (lit "level", lit "intermediate")] := by
  induction rows with
  | nil => rfl
  | cons a t ih =>
    have ha := hmem a (by simp)
    simp only [List.filterMap_cons, ha, List.map_cons, Bool.false_eq_true, if_false]
    rw [ih fun r hr => hmem r (by simp [hr])]

end Portfolio

namespace Portfolio

/-- [C6] For every CSV text whose header line is "name,level" and which has N
subsequent non-blank data rows, the skills parser returns exactly N records
whose keys are the lower-cased header names ("name" and "level"). -/
theorem spec_C6 (c : Str) (rows : List Str)
    (h : nonblankLines c = lit "name,level" :: rows) :
    (parseSkillsCSV c).length = rows.length ∧
      ∀ r ∈ parseSkillsCSV c, r.map Prod.fst = [lit "name", lit "level"] := by
  have hmem : ∀ r ∈ rows, (trimStr r).isEmpty = false := fun r hr =>
    mem_nonblankLines (c := c) (by rw [h]; exact List.mem_cons_of_mem _ hr)
  have hinc : jsIncludes (lowerStr (lit "name,level")) (lit "name") = true := by decide
  have hres : parseSkillsCSV c =
      rows.map fun l => [(lit "name", trimStr l), (lit "level", lit "intermediate")] := by
    rw [parseSkillsCSV, h]
    simp only [hinc, Bool.or_true, if_true]
    exact filterMap_nonblank_rows rows hmem
  rw [hres]
  constructor
  · simp
  · intro r hr
    rcases List.mem_map.mp hr with ⟨l, _, rfl⟩
    rfl

/-- [C6 witness] The theorem applied to a concrete two-row CSV. -/
theorem spec_C6_witness :
    nonblankLines (lit "name,level\nReact,advanced\nVue") =
      lit "name,level" :: [lit "React,advanced", lit "Vue"] ∧
    ((parseSkillsCSV (lit "name,level\nReact,advanced\nVue")).length = 2 ∧
      ∀ r ∈ parseSkillsCSV (lit "name,level\nReact,advanced\nVue"),
        r.map Prod.fst = [lit "name", lit "level"]) :=
  ⟨by decide, spec_C6 (lit "name,level\nReact,advanced\nVue")
    [lit "React,advanced", lit "Vue"] (by decide)⟩

end Portfolio

namespace Portfolio

/-- A profile file whose content has fewer than two non-blank lines
contributes nothing to the multi-file parse loop: its error is caught and
the accumulator is unchanged. -/
theorem parseFileStep_profile_fail (acc : CsvData) (name c : Str)
    (hn : jsIncludes (lowerStr name) (lit "profile") = true)
    (hc : (nonblankLines c).length < 2) :
    parseFileStep acc (name, c) = acc := by
  have hp : parseProfileCSV c =
      .error "Profile CSV must have at least header and one data row" := by
    rw [parseProfileCSV]
    simp [hc]
  simp [parseFileStep, hn, hp]

/-- [C5] parseProfileCSV fails with the missing-data error exactly when its
input has fewer than two non-blank lines; the positions, skills and education
parsers return an empty sequence on a header line with zero data rows; and a
failing profile file in a multi-file batch is skipped while every other file
of the batch is still processed. -/
theorem spec_C5 :
    (∀ c : Str,
      parseProfileCSV c = .error "Profile CSV must have at least header and one data row" ↔
        (nonblankLines c).length < 2) ∧
    (∀ c hdr : Str, nonblankLines c = [hdr] →
      parsePositionsCSV c = .ok [] ∧ parseSkillsCSV c = [] ∧ parseEducationCSV c = .ok []) ∧
    (∀ (pre post : List CsvFile) (name c : Str),
      jsIncludes (lowerStr name) (lit "profile") = true →
      (nonblankLines c).length < 2 →
      parseLinkedInCSV (pre ++ (name, c) :: post) = parseLinkedInCSV (pre ++ post)) := by
  refine ⟨fun c => ?_, fun c hdr h => ?_, fun pre post name c hn hc => ?_⟩
  · rw [parseProfileCSV]
    by_cases hl : (nonblankLines c).length < 2 <;> simp [hl]
  · rw [parsePositionsCSV, parseSkillsCSV, parseEducationCSV, h]
    simp
  · rw [parseLinkedInCSV, parseLinkedInCSV, List.foldl_append, List.foldl_append,
      List.foldl_cons, parseFileStep_profile_fail _ _ _ hn hc]

/-- [C5 witness] The theorem applied to a concrete batch in which a header-only
profile file sits between a skills file and a positions file. -/
theorem spec_C5_witness :
    (parseProfileCSV (lit "first_name,last_name") =
      .error "Profile CSV must have at least header and one data row") ∧
    parseLinkedInCSV
      [(lit "Skills.csv", lit "Name\nDocker"),
       (lit "Profile.csv", lit "first_name,last_name"),
       (lit "Positions.csv", lit "title,company\nDev,Acme")] =
    parseLinkedInCSV
      [(lit "Skills.csv", lit "Name\nDocker"),
       (lit "Positions.csv", lit "title,company\nDev,Acme")] :=
  ⟨(spec_C5.1 (lit "first_name,last_name")).mpr (by decide),
   spec_C5.2.2 [(lit "Skills.csv", lit "Name\nDocker")]
     [(lit "Positions.csv", lit "title,company\nDev,Acme")]
     (lit "Profile.csv") (lit "first_name,last_name") (by decide) (by decide)⟩

end Portfolio

namespace Portfolio

/-- [C2 counterexample] On the header-less input claimed by the spec, the
skills parser treats the first line "React" as a header row (it is neither a
single-line input nor a line containing "name"), so it returns two records
keyed "react" instead of three skills, and the subsequent transformation
throws because the records have no usable name. -/
theorem spec_C2_counterexample :
    parseSkillsCSV (lit "React\nDocker\nLeadership") =
      [[(lit "react", lit "Docker")], [(lit "react", lit "Leadership")]] ∧
    (parseSkillsCSV (lit "React\nDocker\nLeadership")).length ≠ 3 ∧
    transformSkills (parseSkillsCSV (lit "React\nDocker\nLeadership")) defaultPrefs =
      .error "TypeError: skillName.toLowerCase is not a function" :=
  ⟨by decide, by decide, rfl⟩

/-- [C2 amended] With a header line containing "name" prepended (so that the
parser takes its simple skill-per-line format), the three rows React, Docker,
Leadership parse to three records with default level "intermediate", the
categorization assigns them to Frontend Development/Frameworks,
DevOps & Infrastructure/Containers and Other/General respectively, and the
default-preference transformation emits those three roles (each flattened,
since every role holds fewer than three skills). -/
theorem spec_C2 :
    parseSkillsCSV (lit "Name\nReact\nDocker\nLeadership") =
      [ [(lit "name", lit "React"), (lit "level", lit "intermediate")],
        [(lit "name", lit "Docker"), (lit "level", lit "intermediate")],
        [(lit "name", lit "Leadership"), (lit "level", lit "intermediate")] ] ∧
    categorizeSkills (parseSkillsCSV (lit "Name\nReact\nDocker\nLeadership")) [] =
      .ok [ (lit "Frontend Development",
              [(lit "Frameworks", [⟨lit "React", lit "intermediate"⟩])]),
            (lit "DevOps & Infrastructure",
              [(lit "Containers", [⟨lit "Docker", lit "intermediate"⟩])]),
            (lit "Other",
              [(lit "General", [⟨lit "Leadership", lit "intermediate"⟩])]) ] ∧
    transformSkills (parseSkillsCSV (lit "Name\nReact\nDocker\nLeadership")) defaultPrefs =
      .ok [ (lit "Frontend Development", .flat [⟨lit "React", lit "intermediate"⟩]),
            (lit "DevOps & Infrastructure", .flat [⟨lit "Docker", lit "intermediate"⟩]),
            (lit "Other", .flat [⟨lit "Leadership", lit "intermediate"⟩]) ] :=
  ⟨by decide, rfl, rfl⟩

/-- [C7] Every spacing variant of "Spring Boot" — space kept, removed, or
replaced by a hyphen, dot or underscore, in any letter case — is assigned the
role Backend Development by the keyword-matching heuristic (its lower-cased
name contains the Backend Development keyword "spring"). -/
theorem spec_C7 (s : Str)
    (h : lowerStr s ∈
      [lit "spring boot", lit "springboot", lit "spring-boot",
       lit "spring.boot", lit "spring_boot"]) :
    (assignSkill s).1 = lit "Backend Development" := by
  simp only [List.mem_cons, List.not_mem_nil, or_false] at h
  rcases h with h | h | h | h | h <;> (rw [assignSkill, h]; decide)

/-- [C7 witness] The theorem applied to the concrete skill name
"Spring Boot". -/
theorem spec_C7_witness :
    lowerStr (lit "Spring Boot") ∈
      [lit "spring boot", lit "springboot", lit "spring-boot",
       lit "spring.boot", lit "spring_boot"] ∧
    (assignSkill (lit "Spring Boot")).1 = lit "Backend Development" :=
  ⟨by decide, spec_C7 (lit "Spring Boot") (by decide)⟩

end Portfolio

namespace Portfolio

/-- [C8] An explicit "flat" override for a role forces that role to a single
flat sequence of its skills, whatever the global preferences and however many
skills it received; correspondingly, every entry of the transformed output
whose role carries a "flat" override is a flat sequence of exactly the
skills the categorization collected for that role. -/
theorem spec_C8 :
    (∀ (p : Prefs) (role : Str) (scs : Subcats),
      overrideOf p role = some (lit "flat") →
      restructureRole p role scs = .flat (flattenSubcats scs)) ∧
    (∀ (records : List Rec) (p : Prefs) (out : List (Str × RoleVal))
        (cat : Categorized) (role : Str) (v : RoleVal),
      categorizeSkills records [] = .ok cat →
      transformSkills records p = .ok out →
      (role, v) ∈ out →
      overrideOf p role = some (lit "flat") →
      v = .flat (flattenSubcats (subcatsOf cat role))) := by
  have base : ∀ (p : Prefs) (role : Str) (scs : Subcats),
      overrideOf p role = some (lit "flat") →
      restructureRole p role scs = .flat (flattenSubcats scs) := by
    intro p role scs hov
    rw [restructureRole]
    simp [hov]
  refine ⟨base, fun records p out cat role v hcat htr hmem hov => ?_⟩
  rw [transformSkills, hcat] at htr
  simp only [Bind.bind, Except.bind] at htr
  cases htr
  rcases List.mem_map.mp hmem with ⟨r, _, hr⟩
  obtain ⟨rfl, rfl⟩ : r = role ∧ restructureRole p r (subcatsOf cat r) = v := by
    exact ⟨congrArg Prod.fst hr, congrArg Prod.snd hr⟩
  exact (base p r _ hov).symm ▸ rfl

end Portfolio

namespace Portfolio

/-- [C8 witness] The theorem applied to a role holding ten skills under
preferences with subcategories globally enabled and a "flat" override for
Tools & Platforms. -/
theorem spec_C8_witness :
    overrideOf
      { useSubcategories := true, minSkillsForSubcategory := 3,
        categoryOverrides := [(lit "Tools & Platforms", lit "flat")] }
      (lit "Tools & Platforms") = some (lit "flat") ∧
    restructureRole
      { useSubcategories := true, minSkillsForSubcategory := 3,
        categoryOverrides := [(lit "Tools & Platforms", lit "flat")] }
      (lit "Tools & Platforms")
      [ (lit "Version Control",
          [⟨lit "Git", lit "advanced"⟩, ⟨lit "GitHub", lit "advanced"⟩,
           ⟨lit "GitLab", lit "advanced"⟩, ⟨lit "Bitbucket", lit "advanced"⟩,
           ⟨lit "Jira", lit "advanced"⟩]),
        (lit "Testing",
          [⟨lit "Jest", lit "advanced"⟩, ⟨lit "Cypress", lit "advanced"⟩,
           ⟨lit "Selenium", lit "advanced"⟩, ⟨lit "JUnit", lit "advanced"⟩,
           ⟨lit "Postman", lit "advanced"⟩]) ] =
      .flat (flattenSubcats
        [ (lit "Version Control",
            [⟨lit "Git", lit "advanced"⟩, ⟨lit "GitHub", lit "advanced"⟩,
             ⟨lit "GitLab", lit "advanced"⟩, ⟨lit "Bitbucket", lit "advanced"⟩,
             ⟨lit "Jira", lit "advanced"⟩]),
          (lit "Testing",
            [⟨lit "Jest", lit "advanced"⟩, ⟨lit "Cypress", lit "advanced"⟩,
             ⟨lit "Selenium", lit "advanced"⟩, ⟨lit "JUnit", lit "advanced"⟩,
             ⟨lit "Postman", lit "advanced"⟩]) ]) :=
  ⟨by decide, spec_C8.1 _ _ _ (by decide)⟩

end Portfolio

namespace Portfolio

/-- Propositional characterization of the restructuring branches. -/
theorem restructureRole_eq (p : Prefs) (role : Str) (scs : Subcats) :
    restructureRole p role scs =
      if overrideOf p role = some (lit "flat") ∨
          (p.useSubcategories = false ∧
            ((flattenSubcats scs).length : Int) < p.minSkillsForSubcategory) then
        .flat (flattenSubcats scs)
      else if overrideOf p role = some (lit "subcategories") ∨
          (p.useSubcategories = true ∧
            p.minSkillsForSubcategory ≤ ((flattenSubcats scs).length : Int)) then
        .nested (scs.filter fun sc => sc.2.length > 0)
      else .flat (flattenSubcats scs) := by
  rw [restructureRole]
  simp only [Bool.or_eq_true, Bool.and_eq_true, beq_iff_eq, Bool.not_eq_true',
    decide_eq_true_eq, ge_iff_le]

end Portfolio

namespace Portfolio


/-- [C3 counterexample] A "subcategories" override does not always keep the
nested structure: with subcategories globally disabled and a role total of 2
below the threshold 3, the flat branch fires first and the role is flattened
despite its "subcategories" override, contradicting the claim that the
override alone keeps the nested structure. -/
theorem spec_C3_counterexample :
    restructureRole
      { useSubcategories := false, minSkillsForSubcategory := 3,
        categoryOverrides := [(lit "Backend Development", lit "subcategories")] }
      (lit "Backend Development")
      [(lit "Frameworks", [⟨lit "Java", lit "advanced"⟩, ⟨lit "Go", lit "advanced"⟩])] =
      .flat [⟨lit "Java", lit "advanced"⟩, ⟨lit "Go", lit "advanced"⟩] ∧
    ¬ ∃ ns, restructureRole
      { useSubcategories := false, minSkillsForSubcategory := 3,
        categoryOverrides := [(lit "Backend Development", lit "subcategories")] }
      (lit "Backend Development")
      [(lit "Frameworks", [⟨lit "Java", lit "advanced"⟩, ⟨lit "Go", lit "advanced"⟩])] =
      .nested ns := by
  have h : restructureRole
      { useSubcategories := false, minSkillsForSubcategory := 3,
        categoryOverrides := [(lit "Backend Development", lit "subcategories")] }
      (lit "Backend Development")
      [(lit "Frameworks", [⟨lit "Java", lit "advanced"⟩, ⟨lit "Go", lit "advanced"⟩])] =
      .flat [⟨lit "Java", lit "advanced"⟩, ⟨lit "Go", lit "advanced"⟩] := by decide
  refine ⟨h, ?_⟩
  rintro ⟨ns, hns⟩
  rw [h] at hns
  exact RoleVal.noConfusion hns

/-- [C3 amended] The flat condition takes priority: a role is flattened when
its override is "flat" or when subcategories are globally disabled and its
total is below the threshold (even under a "subcategories" override);
otherwise it keeps the nested structure (dropping empty subcategories)
exactly when its override is "subcategories" or subcategories are globally
enabled with total at least the threshold; every remaining case is flat.  In
particular, under the defaults (enabled, threshold 3, no override) a role
with 2 skills flattens and a role with 3 or more keeps subcategories, and a
"subcategories" override keeps the nested structure whenever the priority
flat condition does not hold. -/
theorem spec_C3 :
    (∀ (p : Prefs) (role : Str) (scs : Subcats),
      restructureRole p role scs = .nested (scs.filter fun sc => sc.2.length > 0) ∨
      restructureRole p role scs = .flat (flattenSubcats scs)) ∧
    (∀ (p : Prefs) (role : Str) (scs : Subcats),
      (∃ ns, restructureRole p role scs = RoleVal.nested ns) ↔
        (overrideOf p role ≠ some (lit "flat") ∧
         ¬(p.useSubcategories = false ∧
            ((flattenSubcats scs).length : Int) < p.minSkillsForSubcategory) ∧
         (overrideOf p role = some (lit "subcategories") ∨
          (p.useSubcategories = true ∧
            p.minSkillsForSubcategory ≤ ((flattenSubcats scs).length : Int))))) ∧
    (∀ (p : Prefs) (role : Str) (scs : Subcats),
      p.useSubcategories = true → p.minSkillsForSubcategory = 3 →
      overrideOf p role = none →
      ((flattenSubcats scs).length = 2 →
        restructureRole p role scs = .flat (flattenSubcats scs)) ∧
      (3 ≤ (flattenSubcats scs).length →
        restructureRole p role scs = .nested (scs.filter fun sc => sc.2.length > 0))) ∧
    (∀ (p : Prefs) (role : Str) (scs : Subcats),
      overrideOf p role = some (lit "subcategories") →
      ¬(p.useSubcategories = false ∧
          ((flattenSubcats scs).length : Int) < p.minSkillsForSubcategory) →
      restructureRole p role scs = .nested (scs.filter fun sc => sc.2.length > 0)) := by
  refine ⟨fun p role scs => ?_, fun p role scs => ?_, fun p role scs hu hm ho => ?_,
    fun p role scs hov hflat => ?_⟩
  · rw [restructureRole_eq]
    split_ifs <;> simp
  · rw [restructureRole_eq]
    split_ifs with h1 h2
    · constructor
      · rintro ⟨ns, hns⟩
        exact hns.elim
      · rintro ⟨ha, hb, _⟩
        rcases h1 with h1 | h1
        · exact absurd h1 ha
        · exact absurd h1 hb
    · rw [not_or] at h1
      exact ⟨fun _ => ⟨h1.1, h1.2, h2⟩, fun _ => ⟨_, rfl⟩⟩
    · constructor
      · rintro ⟨ns, hns⟩
        exact hns.elim
      · rintro ⟨_, _, hc⟩
        exact absurd hc h2
  · have hno : ¬(overrideOf p role = some (lit "flat") ∨
        (p.useSubcategories = false ∧
          ((flattenSubcats scs).length : Int) < p.minSkillsForSubcategory)) := by
      rw [ho, hu]
      simp
    constructor
    · intro h2
      rw [restructureRole_eq, if_neg hno, if_neg]
      rw [ho, hu, hm, h2]
      simp
    · intro h3
      rw [restructureRole_eq, if_neg hno, if_pos]
      right
      refine ⟨hu, ?_⟩
      rw [hm]
      exact_mod_cast h3
  · have hno : ¬(overrideOf p role = some (lit "flat") ∨
        (p.useSubcategories = false ∧
          ((flattenSubcats scs).length : Int) < p.minSkillsForSubcategory)) := by
      rintro (h | h)
      · rw [hov] at h
        exact absurd (Option.some.inj h) (by decide)
      · exact hflat h
    rw [restructureRole_eq, if_neg hno, if_pos (Or.inl hov)]

end Portfolio

namespace Portfolio

/-- [C3 witness] The theorem applied under default preferences to a role with
two skills (flattened) and to a role with three skills (kept nested). -/
theorem spec_C3_witness :
    restructureRole defaultPrefs (lit "Frontend Development")
      [(lit "Languages", [⟨lit "HTML", lit "advanced"⟩, ⟨lit "CSS", lit "advanced"⟩])] =
      .flat (flattenSubcats
        [(lit "Languages", [⟨lit "HTML", lit "advanced"⟩, ⟨lit "CSS", lit "advanced"⟩])]) ∧
    restructureRole defaultPrefs (lit "Backend Development")
      [(lit "Languages", [⟨lit "Python", lit "advanced"⟩, ⟨lit "Java", lit "advanced"⟩,
        ⟨lit "Go", lit "advanced"⟩])] =
      .nested ([(lit "Languages", [⟨lit "Python", lit "advanced"⟩, ⟨lit "Java", lit "advanced"⟩,
        ⟨lit "Go", lit "advanced"⟩])].filter fun sc => sc.2.length > 0) :=
  ⟨(spec_C3.2.2.1 defaultPrefs (lit "Frontend Development")
      [(lit "Languages", [⟨lit "HTML", lit "advanced"⟩, ⟨lit "CSS", lit "advanced"⟩])]
      rfl rfl (by decide)).1 (by decide),
   (spec_C3.2.2.1 defaultPrefs (lit "Backend Development")
      [(lit "Languages", [⟨lit "Python", lit "advanced"⟩, ⟨lit "Java", lit "advanced"⟩,
        ⟨lit "Go", lit "advanced"⟩])]
      rfl rfl (by decide)).2 (by decide)⟩

/-- [C9] The section CRUD API does not recognize "education": the valid
section list is exactly the six listed names, the GET and PUT section
endpoints answer 400 Invalid section for "education", the aggregate GET reads
exactly the valid sections (omitting education), and yet the import save path
persists an education document whenever the transformer produced one. -/
theorem spec_C9 :
    VALID_SECTIONS = [ lit "personalInfo", lit "about", lit "skills",
      lit "experience", lit "projects", lit "contact" ] ∧
    lit "education" ∉ VALID_SECTIONS ∧
    (∀ store : Store, getSection store (lit "education") = .badRequest "Invalid section") ∧
    (∀ (validate : Str → JVal → Except String JVal) (body : JVal),
      putSection validate (lit "education") body = .error "Invalid section") ∧
    (∀ store : Store, (getAllPortfolio store).map Prod.fst = VALID_SECTIONS) ∧
    (∀ (pd : PortfolioData) (e : EducationDoc), pd.education = some e →
      (lit "education", SectionDoc.education e) ∈ saveToPortfolio pd) := by
  have hmem : VALID_SECTIONS.contains (lit "education") = false := by decide
  refine ⟨rfl, by decide, fun store => ?_, fun validate body => ?_, fun store => ?_,
    fun pd e he => ?_⟩
  · rw [getSection, hmem]
    rfl
  · rw [putSection, hmem]
    rfl
  · rw [getAllPortfolio, List.map_map]
    exact List.map_id'' (fun x => rfl) _
  · rw [saveToPortfolio, he]
    simp

/-- [C9 witness] The theorem applied to the empty store and to portfolio data
holding only an education document. -/
theorem spec_C9_witness :
    getSection [] (lit "education") = .badRequest "Invalid section" ∧
    (lit "education", SectionDoc.education ⟨[]⟩) ∈ saveToPortfolio
      { personalInfo := none, about := none, experience := none, skills := none,
        education := some ⟨[]⟩ } :=
  ⟨spec_C9.2.2.1 [],
   spec_C9.2.2.2.2.2
     { personalInfo := none, about := none, experience := none, skills := none,
       education := some ⟨[]⟩ } ⟨[]⟩ rfl⟩

end Portfolio

namespace Portfolio

/-- [C1 counterexample] A concrete import of one education CSV persists an
education document through the save path, yet "education" has no entry in the
schema map, so `validateSection` necessarily throws for it and the persisted
document cannot have passed any per-section schema validation — the save path
performs none. -/
theorem spec_C1_counterexample :
    importWrites [(lit "education.csv", lit "degree,school\nBSc,MIT")] defaultPrefs =
      .ok [(lit "education", SectionDoc.education
        { degrees := [{ degree := lit "BSc", school := lit "MIT",
                        field := lit "Computer Science", startDate := lit "2019-09",
                        endDate := lit "2023-05",
                        description := lit "Relevant coursework and projects..." }] })] ∧
    schemaMapSections.contains (lit "education") = false :=
  ⟨rfl, by decide⟩

/-- [C1 amended] The PUT section endpoints persist only validated documents:
every write they perform carries the value the validator returned (with
unknown fields stripped).  The import save path, by contrast, performs no
validation: it writes the transformer output directly, and whenever the
transformer produced an education document it persists a section for which
the schema map has no schema at all. -/
theorem spec_C1 :
    (∀ (validate : Str → JVal → Except String JVal) (s : Str) (b : JVal)
        (w : Str × JVal),
      putSection validate s b = .ok w → ∃ v, validate s b = .ok v ∧ w = (s, v)) ∧
    (∀ (pd : PortfolioData) (e : EducationDoc), pd.education = some e →
      ∃ d, (lit "education", d) ∈ saveToPortfolio pd ∧
        schemaMapSections.contains (lit "education") = false) := by
  refine ⟨fun validate s b w hput => ?_, fun pd e he => ?_⟩
  · rw [putSection] at hput
    by_cases hv : VALID_SECTIONS.contains s
    · rw [hv] at hput
      simp only [Bool.not_true, Bool.false_eq_true, if_false] at hput
      cases hval : validate s b with
      | error msg => rw [hval] at hput; exact Except.noConfusion hput
      | ok v =>
        rw [hval] at hput
        exact ⟨v, rfl, (Except.ok.inj hput).symm⟩
    · rw [Bool.not_eq_true] at hv
      rw [hv] at hput
      exact Except.noConfusion hput
  · refine ⟨SectionDoc.education e, ?_, by decide⟩
    rw [saveToPortfolio, he]
    simp

/-- [C1 witness] The PUT conjunct applied to a concrete validator, section and
body. -/
theorem spec_C1_witness :
    ∃ v, (fun (_ : Str) (d : JVal) => (Except.ok d : Except String JVal))
      (lit "about") JVal.null = .ok v ∧
      ((lit "about", JVal.null) : Str × JVal) = (lit "about", v) :=
  spec_C1.1 (fun _ d => .ok d) (lit "about") JVal.null (lit "about", JVal.null) rfl

end Portfolio

namespace Portfolio

/-! ### Sorting lemmas for the JS stable sort model -/

/-- Inserting permutes. -/
theorem insertLe_perm (le : α → α → Bool) (a : α) (l : List α) :
    (insertLe le a l).Perm (a :: l) := by
  induction l with
  | nil => exact List.Perm.refl _
  | cons b t ih =>
    rw [insertLe]
    split_ifs
    · exact List.Perm.refl _
    · exact (ih.cons b).trans (List.Perm.swap a b t)

/-- Sorting permutes. -/
theorem sortByLe_perm (le : α → α → Bool) (l : List α) :
    (sortByLe le l).Perm l := by
  induction l with
  | nil => exact List.Perm.refl _
  | cons a t ih =>
    rw [sortByLe]
    exact (insertLe_perm le a (sortByLe le t)).trans (ih.cons a)

/-- Membership in an insertion. -/
theorem mem_insertLe {le : α → α → Bool} {a x : α} {l : List α}
    (h : x ∈ insertLe le a l) : x = a ∨ x ∈ l :=
  List.mem_cons.mp ((List.Perm.mem_iff (insertLe_perm le a l)).mp h)

/-- Insertion preserves pairwise ordering for a total transitive comparison. -/
theorem insertLe_pairwise {le : α → α → Bool}
    (htot : ∀ a b, le a b = true ∨ le b a = true)
    (htrans : ∀ a b c, le a b = true → le b c = true → le a c = true)
    (a : α) {l : List α} (h : l.Pairwise (le · · = true)) :
    (insertLe le a l).Pairwise (le · · = true) := by
  induction l with
  | nil => simp [insertLe]
  | cons b t ih =>
    rw [insertLe]
    rcases List.pairwise_cons.mp h with ⟨hb, ht⟩
    split_ifs with hab
    · exact List.pairwise_cons.mpr ⟨by
        intro x hx
        rcases List.mem_cons.mp hx with rfl | hx
        · exact hab
        · exact htrans a b x hab (hb x hx), h⟩
    · have hba : le b a = true := (htot a b).resolve_left (by simpa using hab)
      refine List.pairwise_cons.mpr ⟨?_, ih ht⟩
      intro x hx
      rcases mem_insertLe hx with rfl | hx
      · exact hba
      · exact hb x hx

/-- Sorting yields a pairwise-ordered list for a total transitive
comparison. -/
theorem sortByLe_pairwise {le : α → α → Bool}
    (htot : ∀ a b, le a b = true ∨ le b a = true)
    (htrans : ∀ a b c, le a b = true → le b c = true → le a c = true)
    (l : List α) : (sortByLe le l).Pairwise (le · · = true) := by
  induction l with
  | nil => simp [sortByLe]
  | cons a t ih => exact insertLe_pairwise htot htrans a ih

/-- In a pairwise-ordered list, once the leading elements satisfying `p` are
dropped, no element satisfying `p` remains — provided the ordering forbids a
non-`p` element from preceding a `p` element. -/
theorem dropWhile_none_left {le : α → α → Bool} {p : α → Bool}
    (himp : ∀ a b, le a b = true → p a = false → p b = false)
    {l : List α} (h : l.Pairwise (le · · = true)) :
    ∀ x ∈ l.dropWhile p, p x = false := by
  induction l with
  | nil => simp
  | cons a t ih =>
    rcases List.pairwise_cons.mp h with ⟨ha, ht⟩
    rw [List.dropWhile_cons]
    split_ifs with hpa
    · exact ih ht
    · intro x hx
      rcases List.mem_cons.mp hx with rfl | hx
      · simpa using hpa
      · exact himp a x (ha x hx) (by simpa using hpa)

end Portfolio

namespace Portfolio

/-- The comparator is antisymmetric under negation, as a consistent JS
comparator must be. -/
theorem compareJobs_neg (a b : JVal) : compareJobs b a = -compareJobs a b := by
  rw [compareJobs, compareJobs]
  cases hca : jobIsCurrent a <;> cases hcb : jobIsCurrent b <;> simp [hca, hcb]

/-- Characterization of the comparator accepting a pair. -/
theorem leJobs_iff (a b : JVal) :
    leJobs a b = true ↔
      ((jobIsCurrent a = true ∧ jobIsCurrent b = false) ∨
       (jobIsCurrent a = jobIsCurrent b ∧ jobStart b ≤ jobStart a)) := by
  rw [leJobs, compareJobs]
  cases hca : jobIsCurrent a <;> cases hcb : jobIsCurrent b <;> simp [hca, hcb]

/-- Totality of the jobs comparison. -/
theorem leJobs_total (a b : JVal) : leJobs a b = true ∨ leJobs b a = true := by
  rw [leJobs_iff, leJobs_iff]
  cases hca : jobIsCurrent a <;> cases hcb : jobIsCurrent b <;> simp <;> omega

/-- Transitivity of the jobs comparison. -/
theorem leJobs_trans (a b c : JVal) :
    leJobs a b = true → leJobs b c = true → leJobs a c = true := by
  rw [leJobs_iff, leJobs_iff, leJobs_iff]
  cases hca : jobIsCurrent a <;> cases hcb : jobIsCurrent b <;>
    cases hcc : jobIsCurrent c <;> simp <;> omega

/-- A non-current job is never ordered before a current one. -/
theorem leJobs_not_current (a b : JVal) (h : leJobs a b = true)
    (ha : jobIsCurrent a = false) : jobIsCurrent b = false := by
  rcases (leJobs_iff a b).mp h with ⟨h1, _⟩ | ⟨h1, _⟩
  · rw [h1] at ha
    exact absurd ha (by simp)
  · rw [← h1, ha]

/-- Overwriting a section and looking it up finds exactly the new
document. -/
theorem find_writeSectionData (store : Store) (s : Str) (d : JVal) :
    (writeSectionData store s d).find? (·.1 == s) = some (s, d) := by
  induction store with
  | nil => simp [writeSectionData, List.find?]
  | cons p rest ih =>
    rw [writeSectionData]
    split_ifs with hp
    · have : p.1 = s := by simpa using hp
      simp [List.find?, this]
    · rw [List.find?]
      simp only [hp]
      exact ih

end Portfolio

namespace Portfolio

/-- [C4] Writing a valid section and reading it back returns the document
unchanged, except for the experience section, whose jobs sequence is
re-sorted in the returned copy: current jobs come first, and the jobs after
the leading current ones are ordered by start date descending.  The sort is
applied on the read path only: the stored document remains exactly the one
written.  (For experience the document is assumed to carry a jobs array of
jobs with schema-valid start dates, the domain on which the embedded
comparator agrees with the JS one.) -/
theorem spec_C4 :
    (∀ (store : Store) (s : Str) (d : JVal),
      s ∈ VALID_SECTIONS → s ≠ lit "experience" →
      readSectionData (writeSectionData store s d) s = .ok d) ∧
    (∀ (store : Store) (fields : List (Str × JVal)) (jobs : List JVal),
      jLookup fields (lit "jobs") = some (.arr jobs) →
      (∀ j ∈ jobs, jobStartValid j = true) →
      readSectionData (writeSectionData store (lit "experience") (.obj fields))
          (lit "experience") =
        .ok (.obj (jSetField fields (lit "jobs") (.arr (sortJobs jobs)))) ∧
      (sortJobs jobs).Perm jobs ∧
      (∀ j ∈ (sortJobs jobs).dropWhile jobIsCurrent, jobIsCurrent j = false) ∧
      ((sortJobs jobs).dropWhile jobIsCurrent).Pairwise
        (fun a b => jobStart b ≤ jobStart a)) ∧
    (∀ (store : Store) (s : Str) (d : JVal),
      ((writeSectionData store s d).find? (·.1 == s)).map (·.2) = some d) := by
  refine ⟨fun store s d _ hne => ?_, fun store fields jobs hjobs _hvalid => ?_,
    fun store s d => by rw [find_writeSectionData]; rfl⟩
  · have hb : (s == lit "experience") = false := by
      simpa using hne
    rw [readSectionData, find_writeSectionData]
    simp [hb]
  · have hsorted : (sortJobs jobs).Pairwise (leJobs · · = true) :=
      sortByLe_pairwise leJobs_total leJobs_trans jobs
    have hdrop : ∀ j ∈ (sortJobs jobs).dropWhile jobIsCurrent, jobIsCurrent j = false :=
      dropWhile_none_left leJobs_not_current hsorted
    refine ⟨?_, sortByLe_perm leJobs jobs, hdrop, ?_⟩
    · rw [readSectionData, find_writeSectionData]
      simp [hjobs, jTruthy]
    · have hsub : ((sortJobs jobs).dropWhile jobIsCurrent).Pairwise (leJobs · · = true) :=
        hsorted.sublist (List.dropWhile_sublist _)
      refine List.Pairwise.imp_of_mem ?_ hsub
      intro a b ha hb hle
      rcases (leJobs_iff a b).mp hle with ⟨h1, _⟩ | ⟨_, h2⟩
      · rw [hdrop a ha] at h1
        exact absurd h1 (by simp)
      · exact h2

/-- [C4 witness] The theorem applied to a concrete store, a non-experience
write, and an experience document with one current and two dated jobs. -/
theorem spec_C4_witness :
    (lit "about" ∈ VALID_SECTIONS ∧
     readSectionData (writeSectionData [] (lit "about") (.str (lit "hello")))
        (lit "about") = .ok (.str (lit "hello"))) ∧
    (jLookup
        [(lit "jobs", JVal.arr
          [ .obj [(lit "isCurrent", .bool false), (lit "startDate", .str (lit "2019-04"))],
            .obj [(lit "isCurrent", .bool true), (lit "startDate", .str (lit "2018-01"))],
            .obj [(lit "isCurrent", .bool false), (lit "startDate", .str (lit "2021-11"))] ])]
        (lit "jobs") = some (JVal.arr
          [ .obj [(lit "isCurrent", .bool false), (lit "startDate", .str (lit "2019-04"))],
            .obj [(lit "isCurrent", .bool true), (lit "startDate", .str (lit "2018-01"))],
            .obj [(lit "isCurrent", .bool false), (lit "startDate", .str (lit "2021-11"))] ]) ∧
     readSectionData
        (writeSectionData [] (lit "experience")
          (.obj [(lit "jobs", JVal.arr
            [ .obj [(lit "isCurrent", .bool false), (lit "startDate", .str (lit "2019-04"))],
              .obj [(lit "isCurrent", .bool true), (lit "startDate", .str (lit "2018-01"))],
              .obj [(lit "isCurrent", .bool false), (lit "startDate", .str (lit "2021-11"))] ])]))
        (lit "experience") =
      .ok (.obj (jSetField
        [(lit "jobs", JVal.arr
          [ .obj [(lit "isCurrent", .bool false), (lit "startDate", .str (lit "2019-04"))],
            .obj [(lit "isCurrent", .bool true), (lit "startDate", .str (lit "2018-01"))],
            .obj [(lit "isCurrent", .bool false), (lit "startDate", .str (lit "2021-11"))] ])]
        (lit "jobs") (.arr (sortJobs
          [ .obj [(lit "isCurrent", .bool false), (lit "startDate", .str (lit "2019-04"))],
            .obj [(lit "isCurrent", .bool true), (lit "startDate", .str (lit "2018-01"))],
            .obj [(lit "isCurrent", .bool false), (lit "startDate", .str (lit "2021-11"))] ]))))) :=
  ⟨⟨by decide, spec_C4.1 [] (lit "about") (.str (lit "hello")) (by decide) (by decide)⟩,
   rfl,
   (spec_C4.2.1 []
      [(lit "jobs", JVal.arr
        [ .obj [(lit "isCurrent", .bool false), (lit "startDate", .str (lit "2019-04"))],
          .obj [(lit "isCurrent", .bool true), (lit "startDate", .str (lit "2018-01"))],
          .obj [(lit "isCurrent", .bool false), (lit "startDate", .str (lit "2021-11"))] ])]
      [ .obj [(lit "isCurrent", .bool false), (lit "startDate", .str (lit "2019-04"))],
        .obj [(lit "isCurrent", .bool true), (lit "startDate", .str (lit "2018-01"))],
        .obj [(lit "isCurrent", .bool false), (lit "startDate", .str (lit "2021-11"))] ]
      rfl (by
      intro j hj
      fin_cases hj <;> rfl)).1⟩

end Portfolio

namespace Portfolio
/-! ### Skill preservation through the transformation -/

/-- Unfolding lemma: flattening a cons. -/
theorem flattenSubcats_cons (p : Str × List Skill) (rest : Subcats) :
    flattenSubcats (p :: rest) = p.2 ++ flattenSubcats rest := rfl

/-- Unfolding lemma: collected skills of a cons. -/
theorem catSkills_cons (p : Str × Subcats) (rest : Categorized) :
    catSkills (p :: rest) = flattenSubcats p.2 ++ catSkills rest := rfl

/-- Pushing a skill adds exactly that skill to the flattened subcategories. -/
theorem flattenSubcats_pushSubcat (scs : Subcats) (sc : Str) (sk : Skill) :
    (flattenSubcats (pushSubcat scs sc sk)).Perm (sk :: flattenSubcats scs) := by
  induction scs with
  | nil => simp [pushSubcat, flattenSubcats]
  | cons p rest ih =>
    rw [pushSubcat]
    split_ifs with hp
    · rw [flattenSubcats_cons, flattenSubcats_cons, List.append_assoc, List.singleton_append]
      exact List.perm_middle
    · rw [flattenSubcats_cons, flattenSubcats_cons]
      exact (ih.append_left p.2).trans List.perm_middle

/-- Inserting a skill adds exactly that skill to the collected skills. -/
theorem catSkills_insertSkill (cat : Categorized) (role sc : Str) (sk : Skill) :
    (catSkills (insertSkill cat role sc sk)).Perm (sk :: catSkills cat) := by
  induction cat with
  | nil => simp [insertSkill, catSkills, pushSubcat, flattenSubcats]
  | cons p rest ih =>
    rw [insertSkill]
    split_ifs with hp
    · rw [catSkills_cons, catSkills_cons]
      exact (flattenSubcats_pushSubcat p.2 sc sk).append_right _
    · rw [catSkills_cons, catSkills_cons]
      exact (ih.append_left (flattenSubcats p.2)).trans List.perm_middle

end Portfolio

namespace Portfolio

/-- Keys of an insertion come from the old keys plus the inserted role. -/
theorem mem_keys_insertSkill {cat : Categorized} {role sc : Str} {sk : Skill} {x : Str}
    (h : x ∈ (insertSkill cat role sc sk).map (·.1)) :
    x = role ∨ x ∈ cat.map (·.1) := by
  induction cat with
  | nil =>
    rw [insertSkill] at h
    simp at h
    exact Or.inl h
  | cons p rest ih =>
    rw [insertSkill] at h
    split_ifs at h with hp
    · simp only [List.map_cons] at h ⊢
      exact Or.inr h
    · simp only [List.map_cons, List.mem_cons] at h ⊢
      rcases h with rfl | h
      · exact Or.inr (Or.inl rfl)
      · rcases ih h with rfl | h
        · exact Or.inl rfl
        · exact Or.inr (Or.inr h)

/-- Insertion preserves key distinctness. -/
theorem nodup_keys_insertSkill {cat : Categorized} (role sc : Str) (sk : Skill)
    (h : (cat.map (·.1)).Nodup) :
    ((insertSkill cat role sc sk).map (·.1)).Nodup := by
  induction cat with
  | nil =>
    rw [insertSkill]
    simp
  | cons p rest ih =>
    rw [insertSkill]
    simp only [List.map_cons, List.nodup_cons] at h
    split_ifs with hp
    · simp only [List.map_cons, List.nodup_cons]
      exact h
    · simp only [List.map_cons, List.nodup_cons]
      refine ⟨fun hmem => ?_, ih h.2⟩
      rcases mem_keys_insertSkill hmem with rfl | hmem
      · simp at hp
      · exact h.1 hmem

/-- The categorization loop succeeds whenever every record has a usable name,
its result collects exactly one skill entry per record (as a multiset), and
it preserves key distinctness. -/
theorem categorizeSkills_props :
    ∀ (records : List Rec) (cat : Categorized),
      (∀ r ∈ records, recSkillName r ≠ none) →
      ∃ out, categorizeSkills records cat = .ok out ∧
        (catSkills out).Perm (records.map recToSkill ++ catSkills cat) ∧
        ((cat.map (·.1)).Nodup → (out.map (·.1)).Nodup) := by
  intro records
  induction records with
  | nil =>
    intro cat _
    exact ⟨cat, rfl, by simp, fun h => h⟩
  | cons r rs ih =>
    intro cat hname
    rcases hn : recSkillName r with - | n
    · exact absurd hn (hname r (by simp))
    · have hstep := catSkills_insertSkill cat (assignSkill n).1
        (((assignSkill n).2).getD (lit "Other")) ⟨n, recSkillLevel r⟩
      obtain ⟨out, hout, hperm, hnd⟩ := ih
        (insertSkill cat (assignSkill n).1 (((assignSkill n).2).getD (lit "Other"))
          ⟨n, recSkillLevel r⟩)
        (fun x hx => hname x (by simp [hx]))
      refine ⟨out, ?_, ?_, ?_⟩
      · rw [categorizeSkills, hn]
        exact hout
      · have hsk : recToSkill r = ⟨n, recSkillLevel r⟩ := by
          rw [recToSkill, hn]
          rfl
        have h2 : (catSkills out).Perm
            (⟨n, recSkillLevel r⟩ :: (rs.map recToSkill ++ catSkills cat)) :=
          (hperm.trans (hstep.append_left (rs.map recToSkill))).trans List.perm_middle
        rw [List.map_cons, hsk]
        exact h2
      · intro h
        exact hnd (nodup_keys_insertSkill _ _ _ h)

end Portfolio

namespace Portfolio

/-- Dropping empty subcategories does not change the flattened skills. -/
theorem flattenSubcats_filter (scs : Subcats) :
    flattenSubcats (scs.filter fun sc => sc.2.length > 0) = flattenSubcats scs := by
  induction scs with
  | nil => rfl
  | cons p rest ih =>
    rw [List.filter_cons]
    split_ifs with hp
    · rw [flattenSubcats_cons, flattenSubcats_cons, ih]
    · have hnil : p.2 = [] := by
        simpa using hp
      rw [flattenSubcats_cons, hnil, List.nil_append, ih]

/-- Restructuring a role never changes the skills it holds. -/
theorem skillsOfVal_restructureRole (p : Prefs) (role : Str) (scs : Subcats) :
    skillsOfVal (restructureRole p role scs) = flattenSubcats scs := by
  rw [restructureRole_eq]
  split_ifs <;> simp [skillsOfVal, flattenSubcats_filter]

/-- With distinct keys, looking an entry of the structure up by its own key
finds exactly that entry. -/
theorem subcatsOf_self {cat : Categorized} (h : (cat.map (·.1)).Nodup) :
    ∀ rc ∈ cat, subcatsOf cat rc.1 = rc.2 := by
  induction cat with
  | nil => simp
  | cons p rest ih =>
    simp only [List.map_cons, List.nodup_cons] at h
    intro rc hrc
    rcases List.mem_cons.mp hrc with rfl | hrc
    · rw [subcatsOf, List.find?]
      simp
    · have hne : (p.1 == rc.1) = false := by
        have : rc.1 ∈ rest.map (·.1) := List.mem_map.mpr ⟨rc, hrc, rfl⟩
        simp only [beq_eq_false_iff_ne, ne_eq]
        intro hcontra
        rw [hcontra] at h
        exact h.1 this
      rw [subcatsOf, List.find?, hne]
      exact ih h.2 rc hrc

/-- Enumerating the structure by its (distinct) keys and looking each key up
re-lists exactly the per-role skills. -/
theorem keys_map_flatten {cat : Categorized} (h : (cat.map (·.1)).Nodup) :
    ((cat.map (·.1)).map fun role => flattenSubcats (subcatsOf cat role)) =
      cat.map fun rc => flattenSubcats rc.2 := by
  rw [List.map_map]
  refine List.map_congr_left ?_
  intro rc hrc
  show flattenSubcats (subcatsOf cat rc.1) = flattenSubcats rc.2
  rw [subcatsOf_self h rc hrc]

end Portfolio

namespace Portfolio

/-- The role ordering permutes the keys. -/
theorem sortRoles_perm (keys : List Str) : (sortRoles keys).Perm keys := by
  rw [sortRoles]
  exact sortByLe_perm _ keys

/-- [C10 counterexample] A record with a name and a proficiency but no level
is emitted with its proficiency ("expert"), not with the claimed default
"intermediate": the code falls back to `proficiency` before the default. -/
theorem spec_C10_counterexample :
    transformSkills [[(lit "name", lit "X"), (lit "proficiency", lit "expert")]]
        defaultPrefs =
      .ok [(lit "Other", .flat [⟨lit "X", lit "expert"⟩])] ∧
    (⟨lit "X", lit "expert"⟩ : Skill) ≠ ⟨lit "X", lit "intermediate"⟩ :=
  ⟨rfl, by decide⟩

/-- [C10 amended] For every list of records each carrying a usable (non-empty)
name and every preferences value, the transformation succeeds and neither
loses nor duplicates skills: the multiset of skill entries in the output —
across flat roles and nested subcategories — has exactly one entry per input
record, carrying that record's name and its level (falling back to its
proficiency, then to "intermediate"). -/
theorem spec_C10 (records : List Rec) (p : Prefs)
    (h : ∀ r ∈ records, recSkillName r ≠ none) :
    ∃ out, transformSkills records p = .ok out ∧
      (outputSkills out).Perm (records.map recToSkill) := by
  obtain ⟨cat, hcat, hperm, hnodup⟩ := categorizeSkills_props records [] h
  have hnd : (cat.map (·.1)).Nodup := hnodup (by simp)
  refine ⟨(sortRoles (cat.map (·.1))).map fun role =>
    (role, restructureRole p role (subcatsOf cat role)), ?_, ?_⟩
  · rw [transformSkills, hcat]
    rfl
  · have hout : outputSkills ((sortRoles (cat.map (·.1))).map fun role =>
        (role, restructureRole p role (subcatsOf cat role))) =
        ((sortRoles (cat.map (·.1))).map fun role =>
          flattenSubcats (subcatsOf cat role)).flatten := by
      rw [outputSkills, List.map_map]
      congr 1
      refine List.map_congr_left ?_
      intro role _
      exact skillsOfVal_restructureRole p role _
    rw [hout]
    have hstep :=
      ((sortRoles_perm (cat.map (·.1))).map
        (fun role => flattenSubcats (subcatsOf cat role))).flatten
    rw [keys_map_flatten hnd] at hstep
    have hfinal : (catSkills cat).Perm (records.map recToSkill) := by
      have hnil : catSkills ([] : Categorized) = [] := rfl
      rw [hnil, List.append_nil] at hperm
      exact hperm
    exact hstep.trans hfinal

/-- [C10 witness] The theorem applied to two concrete named records. -/
theorem spec_C10_witness :
    (∀ r ∈ [[(lit "name", lit "Docker")],
            [(lit "name", lit "Git"), (lit "level", lit "advanced")]],
      recSkillName r ≠ none) ∧
    ∃ out, transformSkills
        [[(lit "name", lit "Docker")],
         [(lit "name", lit "Git"), (lit "level", lit "advanced")]] defaultPrefs =
      .ok out ∧
      (outputSkills out).Perm
        ([[(lit "name", lit "Docker")],
          [(lit "name", lit "Git"), (lit "level", lit "advanced")]].map recToSkill) :=
  ⟨by decide,
   spec_C10 [[(lit "name", lit "Docker")],
             [(lit "name", lit "Git"), (lit "level", lit "advanced")]] defaultPrefs
     (by decide)⟩

end Portfolio
